import Mathlib

/-!
Verification of the BriefingRoom transcript lifecycle manager.

This file embeds, as executable Lean definitions, the core of
`backend/app/services/transcript_service.py` and
`backend/app/api/transcripts.py`:

* the WebVTT caption parsers (`parse_webvtt_to_text`, `parse_webvtt_to_segments`),
* the metadata extractor (`extract_webvtt_metadata`),
* the provider transcript selection loop of `get_daily_transcript`,
* the reconciler `fetch_and_store_transcript` (store/provider effects made
  explicit as data), and
* the client submission endpoint `save_transcript`.

Text is modeled as `List Char`; Python `str.strip`, `str.split` and the
regular expressions used by the source are given direct recursive models.
Cue timestamps are modeled exactly, in integer milliseconds (the source
computes `h*3600 + m*60 + s + ms/1000` in floating point; all numeric
statements below are phrased over the exact millisecond arithmetic).
-/

namespace BriefingRoom

set_option maxRecDepth 8192

/-- Characters accepted by Python's `str.strip()` with no arguments and by the
`\s` regex class (ASCII range; the repository's caption inputs are ASCII). -/
def isPySpace (c : Char) : Bool :=
  c == ' ' || c == '\t' || c == '\n' || c == '\r' || c == '\x0b' || c == '\x0c'

/-- Python `str.strip()`: drop leading and trailing whitespace. -/
def pyStrip (l : List Char) : List Char :=
  ((l.dropWhile isPySpace).reverse.dropWhile isPySpace).reverse

/-- Python `s.split("\n")`: split on every newline, keeping empty pieces. -/
def splitOnNL : List Char → List (List Char)
  | [] => [[]]
  | c :: cs =>
    if c = '\n' then [] :: splitOnNL cs
    else
      match splitOnNL cs with
      | [] => [[c]]
      | l :: ls => (c :: l) :: ls

/-- Python `sep.join(pieces)`. -/
def joinSep (sep : List Char) : List (List Char) → List Char
  | [] => []
  | [l] => l
  | l :: l' :: ls => l ++ sep ++ joinSep sep (l' :: ls)

def nlSep : List Char := "\n".toList

def spaceSep : List Char := " ".toList

/-- Match a literal at the head of the input, returning the remainder. -/
def litAt : List Char → List Char → Option (List Char)
  | [], rest => some rest
  | _ :: _, [] => none
  | p :: ps, c :: cs => if c = p then litAt ps cs else none

def webvttLit : List Char := ['W', 'E', 'B', 'V', 'T', 'T']

/-- `line.startswith("WEBVTT")` on an already-stripped line (the source's
header test `line == "WEBVTT" or line.startswith("WEBVTT")` reduces to the
`startswith` check). -/
def startsWEBVTT (l : List Char) : Bool :=
  (litAt webvttLit l).isSome

def colonChar : Char := ':'

def dotChar : Char := '.'

/-- Consume one expected character. -/
def expectCh (ch : Char) : List Char → Option (List Char)
  | [] => none
  | c :: cs => if c = ch then some cs else none

def digitVal (c : Char) : Nat := c.toNat - '0'.toNat

/-- Regex `\d{2}`: exactly two digits, returned as a number. -/
def digit2 : List Char → Option (Nat × List Char)
  | a :: b :: rest =>
    if a.isDigit && b.isDigit then some (10 * digitVal a + digitVal b, rest) else none
  | _ => none

/-- Regex `\d{3}`: exactly three digits, returned as a number. -/
def digit3 : List Char → Option (Nat × List Char)
  | a :: b :: c :: rest =>
    if a.isDigit && b.isDigit && c.isDigit then
      some (100 * digitVal a + 10 * digitVal b + digitVal c, rest)
    else none
  | _ => none

/-- Regex `\d{2}:\d{2}:\d{2}\.\d{3}` anchored at the head of the input; the
captured timestamp is returned in milliseconds together with the remainder. -/
def tsMatch (l : List Char) : Option (Nat × List Char) := do
  let (h, r1) ← digit2 l
  let r2 ← expectCh colonChar r1
  let (m, r3) ← digit2 r2
  let r4 ← expectCh colonChar r3
  let (s, r5) ← digit2 r4
  let r6 ← expectCh dotChar r5
  let (ms, r7) ← digit3 r6
  pure (h * 3600000 + m * 60000 + s * 1000 + ms, r7)

def arrowLit : List Char := "-->".toList

/-- Regex `\d{2}:\d{2}:\d{2}\.\d{3}\s*-->\s*\d{2}:\d{2}:\d{2}\.\d{3}` anchored
at the head of the input: start and end timestamps in milliseconds, plus the
remainder after the whole match (used by the `re.findall` scan). -/
def cueTimingR (l : List Char) : Option (Nat × Nat × List Char) := do
  let (st, r1) ← tsMatch l
  let r2 := r1.dropWhile isPySpace
  let r3 ← litAt arrowLit r2
  let r4 := r3.dropWhile isPySpace
  let (en, r5) ← tsMatch r4
  pure (st, en, r5)

/-- The cue-timing match as used with `re.match` (remainder discarded). -/
def cueTiming (l : List Char) : Option (Nat × Nat) :=
  (cueTimingR l).map (fun p => (p.1, p.2.1))

/-- The scanning loop of `parse_webvtt_to_text` over the split lines.
Mirrors the `while i < len(lines)` loop: skip header lines and blank lines,
on a full cue-timing line consume the single following line as content when it
is non-blank and does not itself start with a timestamp, and otherwise emit
any line that does not start with a timestamp. -/
def textLoop : List (List Char) → List (List Char)
  | [] => []
  | l :: rest =>
    let line := pyStrip l
    if startsWEBVTT line then textLoop rest
    else if line = [] then textLoop rest
    else if (cueTiming line).isSome then
      match rest with
      | [] => []
      | t :: rest2 =>
        let tl := pyStrip t
        if tl ≠ [] ∧ (tsMatch tl).isNone then tl :: textLoop rest2
        else textLoop rest2
    else if (tsMatch line).isSome then textLoop rest
    else line :: textLoop rest

/-- Core of `parse_webvtt_to_text` on character lists. -/
def textCore (l : List Char) : List Char :=
  if pyStrip l = [] then [] else joinSep nlSep (textLoop (splitOnNL l))

/-- `parse_webvtt_to_text`: convert WebVTT content to a plain-text transcript. -/
def parse_webvtt_to_text (webvtt_content : String) : String :=
  String.mk (textCore webvtt_content.toList)

/-- One parsed cue segment. `start_time`/`end_time` are held in exact integer
milliseconds (the source stores fractional seconds `h*3600+m*60+s+ms/1000`). -/
structure Segment where
  speaker : Option (List Char)
  text : List Char
  start_time : Nat
  end_time : Nat
deriving DecidableEq, Repr

/-- The inner `while` loop of `parse_webvtt_to_segments` that collects a cue's
content lines: stripped lines up to (not including) the first blank line or
line starting with a timestamp. Returns the collected lines and the remaining
input (beginning with the line that stopped the collection). -/
def takeCueText : List (List Char) → List (List Char) × List (List Char)
  | [] => ([], [])
  | l :: rest =>
    let tl := pyStrip l
    if tl = [] ∨ (tsMatch tl).isSome then ([], l :: rest)
    else
      let p := takeCueText rest
      (tl :: p.1, p.2)

/-- Case-insensitive literal match, returning the consumed original characters
and the remainder (the pattern word is given in lowercase). -/
def litAtCI : List Char → List Char → Option (List Char × List Char)
  | [], rest => some ([], rest)
  | _ :: _, [] => none
  | p :: ps, c :: cs =>
    if c.toLower = p then
      match litAtCI ps cs with
      | some (w, rest) => some (c :: w, rest)
      | none => none
    else none

def speakerWord : List Char := ['s', 'p', 'e', 'a', 'k', 'e', 'r']

def participantWord : List Char := ['p', 'a', 'r', 't', 'i', 'c', 'i', 'p', 'a', 'n', 't']

/-- Regex `^(word\s+\d+):\s*(.+)` with `re.IGNORECASE`, followed by the
source's `.strip()` of group 2: on success returns the label (group 1, with
original casing and spacing) and the stripped remainder text.

With the greedy `\s*`, group 2 equals the rest after the colon with its
leading whitespace dropped — unless that would be empty, in which case a
single whitespace character is kept; in both cases `group(2).strip()` equals
`pyStrip` of the rest after the colon, and the match succeeds iff that rest
is non-empty. -/
def speakerAttr (word : List Char) (full : List Char) : Option (List Char × List Char) := do
  let (w, r1) ← litAtCI word full
  let sp := r1.takeWhile isPySpace
  let r2 := r1.dropWhile isPySpace
  if sp = [] then none
  else
    let ds := r2.takeWhile Char.isDigit
    let r3 := r2.dropWhile Char.isDigit
    if ds = [] then none
    else
      let r4 ← expectCh colonChar r3
      if r4 = [] then none
      else some (w ++ sp ++ ds, pyStrip r4)

/-- Speaker attribution of a cue's joined text: first the `Speaker N:`
pattern, then the `Participant N:` pattern, else no speaker. -/
def attribSpeaker (full : List Char) : Option (List Char) × List Char :=
  match speakerAttr speakerWord full with
  | some (lab, txt) => (some lab, txt)
  | none =>
    match speakerAttr participantWord full with
    | some (lab, txt) => (some lab, txt)
    | none => (none, full)

/-- Build one segment from a cue's timing and collected content lines
(joined with a single space). -/
def mkSeg (st en : Nat) (textLines : List (List Char)) : Segment :=
  let full := joinSep spaceSep textLines
  let p := attribSpeaker full
  ⟨p.1, p.2, st, en⟩

/-- The outer scanning loop of `parse_webvtt_to_segments`, with an explicit
fuel bound on the number of iterations (each iteration consumes at least one
line, so `ls.length` fuel — supplied by `segLoop` — is always enough; this
keeps the recursion structural and hence kernel-computable). -/
def segLoopF : Nat → List (List Char) → List Segment
  | 0, _ => []
  | _ + 1, [] => []
  | fuel + 1, l :: rest =>
    let line := pyStrip l
    if startsWEBVTT line then segLoopF fuel rest
    else if line = [] then segLoopF fuel rest
    else
      match cueTiming line with
      | some (st, en) =>
        if (takeCueText rest).1 = [] then segLoopF fuel (takeCueText rest).2
        else mkSeg st en (takeCueText rest).1 :: segLoopF fuel (takeCueText rest).2
      | none => segLoopF fuel rest

/-- The outer scanning loop of `parse_webvtt_to_segments`. -/
def segLoop (ls : List (List Char)) : List Segment :=
  segLoopF ls.length ls

/-- Core of `parse_webvtt_to_segments` on character lists. -/
def segsCore (l : List Char) : List Segment :=
  if pyStrip l = [] then [] else segLoop (splitOnNL l)

/-- `parse_webvtt_to_segments`: parse WebVTT content into structured segments
with speaker information. -/
def parse_webvtt_to_segments (webvtt_content : String) : List Segment :=
  segsCore webvtt_content.toList

/-- Fuelled scan for the cue-timing `re.findall`: each step either consumes a
whole match or advances one character, so `l.length` fuel always suffices. -/
def scanTsF : Nat → List Char → List (Nat × Nat)
  | 0, _ => []
  | _ + 1, [] => []
  | fuel + 1, c :: cs =>
    match cueTimingR (c :: cs) with
    | some p => (p.1, p.2.1) :: scanTsF fuel p.2.2
    | none => scanTsF fuel cs

/-- `re.findall` of the cue-timing pattern over the whole content: scan
left to right, on a match capture the two timestamps (in milliseconds) and
resume after the match, otherwise advance one character. -/
def scanTs (l : List Char) : List (Nat × Nat) :=
  scanTsF l.length l

def speakerCapWord : List Char := ['S', 'p', 'e', 'a', 'k', 'e', 'r']

def participantCapWord : List Char := ['P', 'a', 'r', 't', 'i', 'c', 'i', 'p', 'a', 'n', 't']

def participantLowWord : List Char := ['p', 'a', 'r', 't', 'i', 'c', 'i', 'p', 'a', 'n', 't']

/-- The alternation `(?:Speaker|speaker|Participant|participant)` of the
participant-count pattern, tried in the regex's order (the four literals start
with distinct characters, so at most one can match at a given position). -/
def kwAt (l : List Char) : Option (List Char) :=
  match litAt speakerCapWord l with
  | some r => some r
  | none =>
    match litAt speakerWord l with
    | some r => some r
    | none =>
      match litAt participantCapWord l with
      | some r => some r
      | none => litAt participantLowWord l

/-- One attempted match of `(?:Speaker|speaker|Participant|participant)\s*(\d+)`
anchored at the head of the input: the captured digit string and the remainder
after the match. -/
def speakerNumAt (l : List Char) : Option (List Char × List Char) :=
  match kwAt l with
  | none => none
  | some r1 =>
    let r2 := r1.dropWhile isPySpace
    let ds := r2.takeWhile Char.isDigit
    if ds = [] then none else some (ds, r2.dropWhile Char.isDigit)

/-- Fuelled scan for the participant-count `re.findall`. -/
def scanSpkF : Nat → List Char → List (List Char)
  | 0, _ => []
  | _ + 1, [] => []
  | fuel + 1, c :: cs =>
    match speakerNumAt (c :: cs) with
    | some p => p.1 :: scanSpkF fuel p.2
    | none => scanSpkF fuel cs

/-- `re.findall` of the participant-count pattern over the whole content:
the list of captured digit strings in scan order. -/
def scanSpk (l : List Char) : List (List Char) :=
  scanSpkF l.length l

/-- The mathematically exact end-minus-start span, in milliseconds, between
the first cue-timing match's start and the last match's end. This is a
reference quantity only: the source computes the duration through IEEE
binary64 arithmetic (see `durationPy`), which can disagree with this exact
value; the contrast is part of the C6 correction. -/
def durationExactMs (l : List Char) : Option Int :=
  match scanTs l with
  | [] => none
  | t :: ts => some ((((t :: ts).getLastD t).2 : Int) - (t.1 : Int))

/-- Fuelled floor-log2 (structural recursion, so the kernel can evaluate it;
`log2F n n` is `Nat.log2 n`, since the argument at least halves each step). -/
def log2F : Nat → Nat → Nat
  | 0, _ => 0
  | fuel + 1, n => if 2 ≤ n then log2F fuel (n / 2) + 1 else 0

def natLog2 (n : Nat) : Nat := log2F n n

/-- `floor (logb 2 (a / b))` for `a, b ≥ 1`: the unique `k` with
`2^k ≤ a/b < 2^(k+1)`; it is `natLog2 a - natLog2 b`, less one when `a/b`
falls below that power of two. -/
def floorLog2Frac (a b : Nat) : Int :=
  let d : Int := (natLog2 a : Int) - (natLog2 b : Int)
  let ok : Bool :=
    if 0 ≤ d then decide (b * 2 ^ d.toNat ≤ a) else decide (b ≤ a * 2 ^ (-d).toNat)
  if ok then d else d - 1

/-- Round the rational `a / b` (`b ≥ 1`) to the nearest IEEE binary64 value,
ties to even, returned as `(n, k)` denoting `n / 2^k`. The exponent is
unbounded: every quantity in this development lies far inside the normal
binary64 range, so overflow and subnormals cannot occur, and the significand
is the standard 53 bits. -/
def round53 (a b : Nat) : Nat × Nat :=
  if a = 0 then (0, 0)
  else
    let e : Int := floorLog2Frac a b - 52
    let num := if 0 ≤ e then a else a * 2 ^ (-e).toNat
    let den := if 0 ≤ e then b * 2 ^ e.toNat else b
    let q := num / den
    let r := num % den
    let n :=
      if 2 * r < den then q
      else if den < 2 * r then q + 1
      else if q % 2 = 0 then q else q + 1
    if 0 ≤ e then (n * 2 ^ e.toNat, 0) else (n, (-e).toNat)

/-- The binary64 value of
`int(h)*3600 + int(m)*60 + int(s) + int(ms)/1000.0` (lines 374-378 of
`transcript_service.py`) for a timestamp of `t` total milliseconds: the
integer-second part is exact in binary64 (it is an integer below `2^53`),
`ms/1000.0` rounds once, and the final addition rounds once. Returned as
`(n, k)` denoting `n / 2^k`. -/
def tsFloat (t : Nat) : Nat × Nat :=
  let secs := t / 1000
  let ms := t % 1000
  let p := round53 ms 1000
  round53 (secs * 2 ^ p.2 + p.1) (2 ^ p.2)

/-- Sign-symmetric binary64 rounding of `d / b` (rounding to nearest is
symmetric under negation), as `(n, k)` denoting `n / 2^k`. -/
def round53Z (d : Int) (b : Nat) : Int × Nat :=
  if 0 ≤ d then
    let p := round53 d.toNat b
    ((p.1 : Int), p.2)
  else
    let p := round53 (-d).toNat b
    (-(p.1 : Int), p.2)

/-- Python `int()` of the binary64 value `n / 2^k`: truncation toward zero. -/
def pyIntOfFloat (p : Int × Nat) : Int :=
  if 0 ≤ p.1 then ((p.1.toNat / 2 ^ p.2 : Nat) : Int)
  else -(((-p.1).toNat / 2 ^ p.2 : Nat) : Int)

/-- `int(end_seconds - start_seconds)` as lines 374-381 of
`transcript_service.py` compute it: both timestamps evaluated in binary64,
their difference rounded once more, then truncated toward zero. `t1`/`t2` are
the captured start/end timestamps in milliseconds. -/
def durationPy (t1 t2 : Nat) : Int :=
  let a := tsFloat t1
  let b := tsFloat t2
  let d : Int := (b.1 : Int) * 2 ^ a.2 - (a.1 : Int) * 2 ^ b.2
  pyIntOfFloat (round53Z d (2 ^ (a.2 + b.2)))

/-- The `duration_seconds` value from the cue-timing scan: `int()` of the
binary64 difference between the last match's end and the first match's
start. -/
def durationOfScan (l : List Char) : Option Int :=
  match scanTs l with
  | [] => none
  | t :: ts => some (durationPy t.1 ((t :: ts).getLastD t).2)

/-- The metadata dictionary built by `extract_webvtt_metadata`; a `none` field
models an absent key. -/
structure Metadata where
  duration_seconds : Option Int
  participant_count : Option Nat
deriving DecidableEq, Repr

/-- Core of `extract_webvtt_metadata` on character lists. -/
def metaCore (l : List Char) : Metadata :=
  if pyStrip l = [] then ⟨none, none⟩
  else
    let dur := durationOfScan l
    let ss := scanSpk l
    ⟨dur, if ss = [] then none else some ss.dedup.length⟩

/-- `extract_webvtt_metadata`: duration and participant count from raw
WebVTT content. -/
def extract_webvtt_metadata (webvtt_content : String) : Metadata :=
  metaCore webvtt_content.toList

/-- One entry of the provider's transcript listing, with the fields the
selection loop of `get_daily_transcript` reads (a missing `room_id` key is
`none`; `meeting_session_id` defaults to the empty string). -/
structure ProviderEntry where
  room_id : Option (List Char)
  meeting_session_id : List Char
  status : List Char
  is_vtt_available : Bool
deriving DecidableEq, Repr

/-- Python substring test `needle in hay`. -/
def hasSub (needle hay : List Char) : Bool :=
  (List.range (hay.length + 1)).any (fun i => (litAt needle (hay.drop i)).isSome)

def tFinished : List Char := "t_finished".toList

/-- The `matched` flag computed for one listing entry (lines 96-108 of
`transcript_service.py`): match on the looked-up provider room id when that
lookup succeeded and was truthy, else on the room name directly, else by the
substring heuristic against `meeting_session_id`. -/
def entryMatches (room_id : Option (List Char)) (room_name : List Char)
    (e : ProviderEntry) : Bool :=
  match room_id with
  | some rid =>
    decide (rid ≠ [] ∧ e.room_id = some rid) ||
    decide (e.room_id = some room_name) ||
    (decide (e.meeting_session_id ≠ []) &&
      (hasSub room_name e.meeting_session_id ||
        (decide (rid ≠ []) && hasSub rid e.meeting_session_id)))
  | none =>
    decide (e.room_id = some room_name) ||
    (decide (e.meeting_session_id ≠ []) && hasSub room_name e.meeting_session_id)

/-- `status == "t_finished" and is_vtt_available`. -/
def entryReady (e : ProviderEntry) : Bool :=
  decide (e.status = tFinished) && e.is_vtt_available

/-- The `for transcript in transcripts_list` selection loop of
`get_daily_transcript`: a matching finished+available entry is taken
immediately (`break`); otherwise the first matching entry is remembered as a
fallback (`elif not transcript_obj`). -/
def selectLoop (room_id : Option (List Char)) (room_name : List Char) :
    List ProviderEntry → Option ProviderEntry → Option ProviderEntry
  | [], acc => acc
  | e :: rest, acc =>
    if entryMatches room_id room_name e then
      if entryReady e then some e
      else if acc.isNone then selectLoop room_id room_name rest (some e)
      else selectLoop room_id room_name rest acc
    else selectLoop room_id room_name rest acc

/-- The entry `get_daily_transcript` settles on before the readiness check. -/
def locateTranscript (room_id : Option (List Char)) (room_name : List Char)
    (entries : List ProviderEntry) : Option ProviderEntry :=
  selectLoop room_id room_name entries none

/-- One client-submitted segment as read by `save_transcript`
(`text` defaults to the empty string when missing; `speaker` and
`participantId` are absent-or-string). -/
structure ClientSegment where
  text : List Char
  speaker : Option (List Char)
  participantId : Option (List Char)
deriving DecidableEq, Repr

/-- The JSON value stored in the `transcript_data` column: the provider path
stores the parsed segments, the client path stores the submitted segments
verbatim together with the submission's `source` tag. -/
inductive TData
  | provider (segments : List Segment)
  | client (segments : List ClientSegment) (source : List Char)
deriving DecidableEq, Repr

/-- A row of the `interview_transcripts` table, restricted to the fields the
transcript lifecycle reads and writes. `started_at`/`ended_at` hold opaque
already-parsed timestamps. -/
structure TranscriptRecord where
  id : Nat
  interview_id : List Char
  daily_room_name : List Char
  transcript_text : List Char
  transcript_webvtt : Option (List Char)
  transcript_data : Option TData
  started_at : Option Int
  ended_at : Option Int
  duration_seconds : Option Int
  participant_count : Option Nat
  status : List Char
deriving DecidableEq, Repr

def completedS : List Char := "completed".toList

def pendingS : List Char := "pending".toList

def failedS : List Char := "failed".toList

/-- `db.create_transcript`: build a fresh row. An empty (falsy)
`transcript_webvtt` argument is not stored (`if transcript_webvtt:`). -/
def create_transcript (id : Nat) (interview_id daily_room_name : List Char)
    (transcript_text : List Char) (transcript_webvtt : Option (List Char))
    (transcript_data : Option TData) (started_at ended_at : Option Int)
    (duration_seconds : Option Int) (participant_count : Option Nat)
    (status : List Char) : TranscriptRecord :=
  { id := id
    interview_id := interview_id
    daily_room_name := daily_room_name
    transcript_text := transcript_text
    transcript_webvtt :=
      match transcript_webvtt with
      | some w => if w = [] then none else some w
      | none => none
    transcript_data := transcript_data
    started_at := started_at
    ended_at := ended_at
    duration_seconds := duration_seconds
    participant_count := participant_count
    status := status }

/-- `db.update_transcript`: every argument that `is not None` overwrites the
corresponding column; the rest keep their stored values. -/
def update_transcript (r : TranscriptRecord) (transcript_text : Option (List Char))
    (transcript_webvtt : Option (List Char)) (transcript_data : Option TData)
    (started_at ended_at : Option Int) (duration_seconds : Option Int)
    (participant_count : Option Nat) (status : Option (List Char)) : TranscriptRecord :=
  { r with
    transcript_text := transcript_text.getD r.transcript_text
    transcript_webvtt :=
      match transcript_webvtt with
      | some w => some w
      | none => r.transcript_webvtt
    transcript_data :=
      match transcript_data with
      | some d => some d
      | none => r.transcript_data
    started_at :=
      match started_at with
      | some v => some v
      | none => r.started_at
    ended_at :=
      match ended_at with
      | some v => some v
      | none => r.ended_at
    duration_seconds :=
      match duration_seconds with
      | some v => some v
      | none => r.duration_seconds
    participant_count :=
      match participant_count with
      | some v => some v
      | none => r.participant_count
    status := status.getD r.status }

/-- The store/status write a reconciliation or merge performs. -/
inductive StoreEffect
  | noWrite
  | setPendingStatus (id : Nat)
  | updated (id : Nat)
  | created
deriving DecidableEq, Repr

/-- Result of `fetch_and_store_transcript`: the returned record, whether the
provider was queried, and the store write performed. -/
structure FetchResult where
  record : TranscriptRecord
  providerCalled : Bool
  effect : StoreEffect
deriving DecidableEq, Repr

/-- The body of `fetch_and_store_transcript` after the existing-completed
short-circuit. `provider` is the value `get_daily_transcript` would return
(`none` for not-found/not-ready); a falsy empty string is treated like `none`
by `if not webvtt_content`. -/
def fetchBody (existing : Option TranscriptRecord) (freshId : Nat)
    (provider : Option (List Char)) (room_name interview_id : List Char) : FetchResult :=
  let webvtt :=
    match provider with
    | some w => if w = [] then none else some w
    | none => none
  match webvtt with
  | none =>
    match existing with
    | some r => ⟨r, true, .setPendingStatus r.id⟩
    | none =>
      ⟨create_transcript freshId interview_id room_name [] none none none none
        none none pendingS, true, .created⟩
  | some wc =>
    let text := textCore wc
    let segs := segsCore wc
    let md := metaCore wc
    let tdata := if segs = [] then none else some (TData.provider segs)
    match existing with
    | some r =>
      ⟨update_transcript r (some text) (some wc) tdata none none
        md.duration_seconds md.participant_count (some completedS), true, .updated r.id⟩
    | none =>
      ⟨create_transcript freshId interview_id room_name text (some wc) tdata none none
        md.duration_seconds md.participant_count completedS, true, .created⟩

/-- `fetch_and_store_transcript`: reconcile the stored record for a room with
the provider. The store read, provider response and fresh row id are passed
explicitly; the returned `FetchResult` records the effects. -/
def fetch_and_store_transcript (existing : Option TranscriptRecord) (freshId : Nat)
    (provider : Option (List Char)) (room_name interview_id : List Char) : FetchResult :=
  match existing with
  | some r =>
    if r.status = completedS then ⟨r, false, .noWrite⟩
    else fetchBody (some r) freshId provider room_name interview_id
  | none => fetchBody none freshId provider room_name interview_id

/-- The body of the `POST /transcripts/{interview_id}/save` request as read by
`save_transcript`: the submitted segments, the (already-parsed) optional
timestamps, the raw `duration_seconds` value and the `source` tag. -/
structure SaveRequest where
  segments : List ClientSegment
  started_at : Option Int
  ended_at : Option Int
  duration_seconds : Option Int
  source : List Char
deriving DecidableEq, Repr

/-- Outcome of `save_transcript`: a 400 rejection for an empty segment list,
or the returned record together with the store write performed. -/
inductive SaveResult
  | invalid
  | ok (record : TranscriptRecord) (effect : StoreEffect)
deriving DecidableEq, Repr

def colonSpace : List Char := ": ".toList

/-- One line of the derived plain text: skip a segment whose stripped text is
empty, otherwise emit `"speaker: text"` when the speaker is truthy and the
bare text otherwise. -/
def fmtSegLine (s : ClientSegment) : Option (List Char) :=
  let t := pyStrip s.text
  if t = [] then none
  else
    match s.speaker with
    | some sp => if sp = [] then some t else some (sp ++ colonSpace ++ t)
    | none => some t

def participantLabelHead : List Char := "participant_".toList

/-- The speaker labels one segment contributes to the participant set:
its truthy `speaker` and a synthetic `participant_{id}` label for its truthy
`participantId`. -/
def segLabels (s : ClientSegment) : List (List Char) :=
  (match s.speaker with
    | some sp => if sp = [] then [] else [sp]
    | none => []) ++
  (match s.participantId with
    | some p => if p = [] then [] else [participantLabelHead ++ p]
    | none => [])

/-- All labels contributed by a submission, in order (the source collects them
into a `set`; only the number of distinct labels is ever used). -/
def clientLabels (segs : List ClientSegment) : List (List Char) :=
  (segs.map segLabels).flatten

def interviewRoomHead : List Char := "interview-".toList

/-- `save_transcript`: merge a client-submitted transcript into the store.
The store read and fresh row id are passed explicitly. -/
def save_transcript (existing : Option TranscriptRecord) (freshId : Nat)
    (interview_id : List Char) (req : SaveRequest) : SaveResult :=
  if req.segments = [] then .invalid
  else
    let transcript_text := joinSep nlSep (req.segments.filterMap fmtSegLine)
    let duration_seconds :=
      match req.duration_seconds with
      | some d => if d = 0 then none else some d
      | none => none
    let labels := clientLabels req.segments
    let participant_count := if labels = [] then none else some labels.dedup.length
    let room_name := interviewRoomHead ++ interview_id
    match existing with
    | some r =>
      if r.status = completedS ∧ r.transcript_text ≠ [] then .ok r .noWrite
      else
        .ok (update_transcript r (some transcript_text) none
          (some (.client req.segments req.source)) req.started_at req.ended_at
          duration_seconds participant_count (some completedS)) (.updated r.id)
    | none =>
      .ok (create_transcript freshId interview_id room_name transcript_text none
        (some (.client req.segments req.source)) req.started_at req.ended_at
        duration_seconds participant_count completedS) .created

/-- Progress of one in-flight `fetch_and_store_transcript` call in the race
model: not yet started, store read done (the provider call is the suspension
point between the read and the write), or finished with a returned record. -/
inductive RacePhase
  | start
  | readDone (obs : Option TranscriptRecord)
  | finished (r : TranscriptRecord)
deriving DecidableEq, Repr

/-- Shared state of two concurrent reconciliation calls for the same room:
the stored row for that room, how many row creations have happened, and each
call's progress. -/
structure RaceState where
  store : Option TranscriptRecord
  creates : Nat
  t1 : RacePhase
  t2 : RacePhase
deriving DecidableEq, Repr

/-- Apply a `FetchResult`'s store effect. -/
def applyEffect (store : Option TranscriptRecord) (res : FetchResult) :
    Option TranscriptRecord :=
  match res.effect with
  | .noWrite => store
  | .created => some res.record
  | .updated _ => some res.record
  | .setPendingStatus _ =>
    match store with
    | some s => some { s with status := pendingS }
    | none => store

/-- One atomic step of one call: the store read, or (after the provider
suspension point) the rest of `fetch_and_store_transcript` including its
store write. -/
def stepTask (freshId : Nat) (provider : Option (List Char))
    (room_name interview_id : List Char) (store : Option TranscriptRecord)
    (creates : Nat) :
    RacePhase → Option TranscriptRecord × Nat × RacePhase
  | .start => (store, creates, .readDone store)
  | .readDone obs =>
    let res := fetch_and_store_transcript obs freshId provider room_name interview_id
    (applyEffect store res,
      creates + (match res.effect with | .created => 1 | _ => 0),
      .finished res.record)
  | .finished r => (store, creates, .finished r)

/-- Run a schedule (`true` steps call 1, `false` steps call 2) from a state. -/
def raceExec (freshId1 freshId2 : Nat) (provider : Option (List Char))
    (room_name interview_id : List Char) : List Bool → RaceState → RaceState
  | [], s => s
  | b :: bs, s =>
    let s' :=
      if b then
        let p := stepTask freshId1 provider room_name interview_id s.store s.creates s.t1
        { store := p.1, creates := p.2.1, t1 := p.2.2, t2 := s.t2 }
      else
        let p := stepTask freshId2 provider room_name interview_id s.store s.creates s.t2
        { store := p.1, creates := p.2.1, t1 := s.t1, t2 := p.2.2 }
    raceExec freshId1 freshId2 provider room_name interview_id bs s'

def raceInit : RaceState := ⟨none, 0, .start, .start⟩

def ex4 : String := "Speaker 1: hi\nParticipant 1: yo"

def ex4b : String := "Speaker 5"

def ex6 : String := "00:00:00.500 --> 00:00:05.000\nhi"

def ex6c : String := "00:00:00.001 --> 00:00:01.001\nhi"

def emptyRaw : String := ""

def ex9 : String := "00:00:00.000 --> 00:00:05.000\nWEBVTT rocks"

def ex9out : String := "WEBVTT rocks"

def ex9b : String := "WEBVTT\nhello\nWEBVTT mid\nworld"

/-- `out` is the stripped successor of a full cue-timing line of `ls`: the
position of every line `parse_webvtt_to_text` consumes as cue content without
running its header check. -/
def afterTiming (ls : List (List Char)) (out : List Char) : Prop :=
  ∃ i : ℕ, ∃ h : i + 1 < ls.length,
    (cueTiming (pyStrip (ls.get ⟨i, Nat.lt_of_succ_lt h⟩))).isSome = true ∧
    out = pyStrip (ls.get ⟨i + 1, h⟩)

/-- The cue blocks as C7's amended claim describes them (the code's rule):
scanning the lines in order, each full cue-timing line opens a block whose
content is the following run of lines that are neither blank nor
timestamp-prefixed (any line starting with `HH:MM:SS.mmm` ends the content,
arrow or not — this is where the code diverges from spec §4.1, which ends
content only at a blank line or the next full timing line; see
`specWordedBlocks` and the C7 counterexample), and a block with no content
contributes nothing. -/
def specCueBlocksF : Nat → List (List Char) → List (Nat × Nat × List (List Char))
  | 0, _ => []
  | _ + 1, [] => []
  | fuel + 1, l :: rest =>
    match cueTiming (pyStrip l) with
    | some (st, en) =>
      if (takeCueText rest).1 = [] then specCueBlocksF fuel (takeCueText rest).2
      else (st, en, (takeCueText rest).1) :: specCueBlocksF fuel (takeCueText rest).2
    | none => specCueBlocksF fuel rest

/-- The contentful cue blocks under the amended claim's termination rule. -/
def specCueBlocks (ls : List (List Char)) : List (Nat × Nat × List (List Char)) :=
  specCueBlocksF ls.length ls

/-- Cue-content collection exactly as spec §4.1 words it: content lines run
until a blank line or the next timing line, where a timing line is the full
`HH:MM:SS.mmm --> HH:MM:SS.mmm` pattern; a line carrying a bare timestamp
prefix without the arrow is ordinary content. Modelled from the spec's
wording, for the C7 counterexample. -/
def takeCueTextSpec : List (List Char) → List (List Char) × List (List Char)
  | [] => ([], [])
  | l :: rest =>
    let tl := pyStrip l
    if tl = [] ∨ (cueTiming tl).isSome then ([], l :: rest)
    else
      let p := takeCueTextSpec rest
      (tl :: p.1, p.2)

/-- Contentful cue blocks exactly as spec §4.1 words them (fuelled scan, same
shape as `specCueBlocksF` but with the spec's content-termination rule). -/
def specWordedBlocksF : Nat → List (List Char) → List (Nat × Nat × List (List Char))
  | 0, _ => []
  | _ + 1, [] => []
  | fuel + 1, l :: rest =>
    match cueTiming (pyStrip l) with
    | some (st, en) =>
      if (takeCueTextSpec rest).1 = [] then specWordedBlocksF fuel (takeCueTextSpec rest).2
      else (st, en, (takeCueTextSpec rest).1) :: specWordedBlocksF fuel (takeCueTextSpec rest).2
    | none => specWordedBlocksF fuel rest

/-- The contentful cue blocks under spec §4.1's own wording. -/
def specWordedBlocks (ls : List (List Char)) : List (Nat × Nat × List (List Char)) :=
  specWordedBlocksF ls.length ls

def ex7 : String := "00:00:00.000 --> 00:00:01.000\n00:00:05.000 partial\nhello"

def ridW : Option (List Char) := some ("rid-1".toList)

def roomNameW : List Char := "interview-i1".toList

def entNotReady : ProviderEntry :=
  { room_id := some ("rid-1".toList), meeting_session_id := [],
    status := "t_processing".toList, is_vtt_available := false }

def entReady : ProviderEntry :=
  { room_id := some ("rid-1".toList), meeting_session_id := [],
    status := "t_finished".toList, is_vtt_available := true }

def iid1 : List Char := "i1".toList

def room1 : List Char := "interview-i1".toList

/-- The store effect of a `SaveResult`, when it is not a rejection. -/
def saveEffect : SaveResult → Option StoreEffect
  | .invalid => none
  | .ok _ e => some e

def reqC1 : SaveRequest :=
  { segments := [{ text := "hello there".toList,
                   speaker := some ("Speaker 1".toList), participantId := none }],
    started_at := none, ended_at := none, duration_seconds := some 12,
    source := "local_storage".toList }

def recClientDone : TranscriptRecord :=
  { id := 41, interview_id := iid1, daily_room_name := room1,
    transcript_text := "Speaker 1: old client text".toList,
    transcript_webvtt := none, transcript_data := none, started_at := none,
    ended_at := none, duration_seconds := none, participant_count := none,
    status := completedS }

def recProviderNoText : TranscriptRecord :=
  { id := 42, interview_id := iid1, daily_room_name := room1,
    transcript_text := [],
    transcript_webvtt := some ("WEBVTT\n\n00:00:00.000 --> 00:00:05.000".toList),
    transcript_data := none, started_at := none, ended_at := none,
    duration_seconds := none, participant_count := none, status := completedS }

def recEmptyText : TranscriptRecord :=
  { id := 5, interview_id := iid1, daily_room_name := room1,
    transcript_text := [], transcript_webvtt := none, transcript_data := none,
    started_at := none, ended_at := none, duration_seconds := none,
    participant_count := none, status := completedS }

def providerContent : List Char :=
  "WEBVTT\n\n00:00:00.000 --> 00:00:01.000\nSpeaker 0: hi".toList

def recCompletedEmpty : TranscriptRecord :=
  { id := 7, interview_id := iid1, daily_room_name := room1,
    transcript_text := [], transcript_webvtt := none, transcript_data := none,
    started_at := none, ended_at := none, duration_seconds := none,
    participant_count := none, status := completedS }

def wcNoSegs : List Char := "WEBVTT\n\n00:00:00.000 --> 00:00:05.000".toList

/-- A client segment whose stripped text is non-empty (contributes a line to
the derived plain text). -/
def hasText (s : ClientSegment) : Bool :=
  !(pyStrip s.text).isEmpty

def reqC10 : SaveRequest :=
  { segments := [{ text := "   ".toList, speaker := some ("Speaker 2".toList),
                   participantId := some ("p9".toList) },
                 { text := "hi".toList, speaker := some ("Speaker 1".toList),
                   participantId := none }],
    started_at := none, ended_at := none, duration_seconds := none,
    source := "local_storage".toList }

def raceRoom : List Char := "interview-i1".toList

def raceIid : List Char := "i1".toList

def raceSchedTwo : List Bool := [true, false]

def raceSched : List Bool := [true, false, true, false]

/-- Whether a race-model call has run to completion. -/
def RacePhase.isDone : RacePhase → Bool
  | .finished _ => true
  | _ => false

theorem takeCueText_snd_length (ls : List (List Char)) :
    (takeCueText ls).2.length ≤ ls.length := by
  induction ls with
  | nil => simp [takeCueText]
  | cons l rest ih =>
    simp only [takeCueText]
    split
    · simp
    · simpa using Nat.le_succ_of_le ih

theorem litAt_length_le {p l r : List Char} (h : litAt p l = some r) :
    r.length ≤ l.length := by
  induction p generalizing l with
  | nil => simp [litAt] at h; simp [h]
  | cons c cs ih =>
    cases l with
    | nil => simp [litAt] at h
    | cons x xs =>
      simp only [litAt, Option.ite_none_right_eq_some] at h
      exact Nat.le_succ_of_le (ih h.2)

theorem litAt_length_lt {c : Char} {p l r : List Char} (h : litAt (c :: p) l = some r) :
    r.length < l.length := by
  cases l with
  | nil => simp [litAt] at h
  | cons x xs =>
    simp only [litAt, Option.ite_none_right_eq_some] at h
    exact Nat.lt_succ_of_le (litAt_length_le h.2)

theorem expectCh_length {ch : Char} {l r : List Char} (h : expectCh ch l = some r) :
    r.length < l.length := by
  cases l with
  | nil => simp [expectCh] at h
  | cons x xs =>
    simp only [expectCh, Option.ite_none_right_eq_some, Option.some_inj] at h
    simp [← h.2]

theorem digit2_length {l r : List Char} {n : Nat} (h : digit2 l = some (n, r)) :
    r.length < l.length := by
  cases l with
  | nil => simp [digit2] at h
  | cons a t =>
    cases t with
    | nil => simp [digit2] at h
    | cons b rest =>
      simp only [digit2, Option.ite_none_right_eq_some, Option.some_inj,
        Prod.mk.injEq] at h
      obtain ⟨-, -, rfl⟩ := h
      simp; omega

theorem digit3_length {l r : List Char} {n : Nat} (h : digit3 l = some (n, r)) :
    r.length < l.length := by
  cases l with
  | nil => simp [digit3] at h
  | cons a t =>
    cases t with
    | nil => simp [digit3] at h
    | cons b t2 =>
      cases t2 with
      | nil => simp [digit3] at h
      | cons c rest =>
        simp only [digit3, Option.ite_none_right_eq_some, Option.some_inj,
          Prod.mk.injEq] at h
        obtain ⟨-, -, rfl⟩ := h
        simp; omega

theorem tsMatch_length {l r : List Char} {n : Nat} (h : tsMatch l = some (n, r)) :
    r.length < l.length := by
  unfold tsMatch at h
  simp only [bind, Option.bind_eq_some, pure] at h
  obtain ⟨⟨h1, r1⟩, e1, h⟩ := h
  obtain ⟨r2, e2, h⟩ := h
  obtain ⟨⟨m1, r3⟩, e3, h⟩ := h
  obtain ⟨r4, e4, h⟩ := h
  obtain ⟨⟨s1, r5⟩, e5, h⟩ := h
  obtain ⟨r6, e6, h⟩ := h
  obtain ⟨⟨ms1, r7⟩, e7, h⟩ := h
  obtain ⟨-, rfl⟩ : _ = n ∧ r7 = r := by
    simpa [Option.some_inj, Prod.ext_iff] using h
  calc r7.length < r6.length := digit3_length e7
    _ < r5.length := expectCh_length e6
    _ < r4.length := digit2_length e5
    _ < r3.length := expectCh_length e4
    _ < r2.length := digit2_length e3
    _ < r1.length := expectCh_length e2
    _ < l.length := digit2_length e1

theorem cueTimingR_length {l r : List Char} {st en : Nat}
    (h : cueTimingR l = some (st, en, r)) : r.length < l.length := by
  unfold cueTimingR at h
  simp only [bind, Option.bind_eq_some, pure] at h
  obtain ⟨⟨st1, r1⟩, e1, h⟩ := h
  obtain ⟨r3, e3, h⟩ := h
  obtain ⟨⟨en1, r5⟩, e5, h⟩ := h
  obtain ⟨-, -, rfl⟩ : st1 = st ∧ en1 = en ∧ r5 = r := by
    simpa [Option.some_inj, Prod.ext_iff] using h
  calc r5.length < (r3.dropWhile isPySpace).length := tsMatch_length e5
    _ ≤ r3.length := (List.dropWhile_sublist _).length_le
    _ ≤ (r1.dropWhile isPySpace).length := litAt_length_le e3
    _ ≤ r1.length := (List.dropWhile_sublist _).length_le
    _ < l.length := tsMatch_length e1

theorem kwAt_length {l r : List Char} (h : kwAt l = some r) : r.length < l.length := by
  unfold kwAt at h
  split at h
  · cases h; exact litAt_length_lt (by assumption)
  · split at h
    · cases h; exact litAt_length_lt (by assumption)
    · split at h
      · cases h; exact litAt_length_lt (by assumption)
      · exact litAt_length_lt h

theorem speakerNumAt_length {l : List Char} {ds r : List Char}
    (h : speakerNumAt l = some (ds, r)) : r.length < l.length := by
  unfold speakerNumAt at h
  cases hk : kwAt l with
  | none => rw [hk] at h; simp at h
  | some r1 =>
    rw [hk] at h
    simp only [Option.ite_none_left_eq_some, Option.some_inj, Prod.mk.injEq] at h
    obtain ⟨-, -, rfl⟩ := h
    calc (r1.dropWhile isPySpace |>.dropWhile Char.isDigit).length
        ≤ (r1.dropWhile isPySpace).length := (List.dropWhile_sublist _).length_le
      _ ≤ r1.length := (List.dropWhile_sublist _).length_le
      _ < l.length := kwAt_length hk

theorem pyStrip_nil_iff {l : List Char} :
    pyStrip l = [] ↔ ∀ c ∈ l, isPySpace c = true := by
  unfold pyStrip
  rw [List.reverse_eq_nil_iff, List.dropWhile_eq_nil_iff]
  constructor
  · intro h c hc
    have hsplit := List.takeWhile_append_dropWhile (p := isPySpace) (l := l)
    rw [← hsplit] at hc
    rcases List.mem_append.mp hc with h1 | h2
    · exact List.mem_takeWhile_imp h1
    · exact h c (List.mem_reverse.mpr h2)
  · intro h c hc
    exact h c ((List.dropWhile_sublist _).subset (List.mem_reverse.mp hc))

theorem mem_splitOnNL_subset {l line : List Char}
    (hl : line ∈ splitOnNL l) {c : Char} (hc : c ∈ line) : c ∈ l := by
  induction l generalizing line with
  | nil =>
    simp [splitOnNL] at hl
    subst hl
    simp at hc
  | cons x xs ih =>
    unfold splitOnNL at hl
    by_cases hx : x = '\n'
    · rw [if_pos hx] at hl
      rcases List.mem_cons.mp hl with h1 | h1
      · subst h1; simp at hc
      · exact List.mem_cons_of_mem _ (ih h1 hc)
    · rw [if_neg hx] at hl
      cases hsp : splitOnNL xs with
      | nil =>
        rw [hsp] at hl
        simp at hl
        subst hl
        simp at hc
        simp [hc]
      | cons y ys =>
        rw [hsp] at hl
        rcases List.mem_cons.mp hl with h1 | h1
        · subst h1
          rcases List.mem_cons.mp hc with rfl | hcy
          · exact List.mem_cons_self _ _
          · exact List.mem_cons_of_mem _
              (ih (by rw [hsp]; exact List.mem_cons_self _ _) hcy)
        · exact List.mem_cons_of_mem _
            (ih (by rw [hsp]; exact List.mem_cons_of_mem _ h1) hc)

theorem isPySpace_not_digit {c : Char} (h : isPySpace c = true) : c.isDigit = false := by
  simp [isPySpace] at h
  rcases h with ((((h | h) | h) | h) | h) | h <;> subst h <;> decide

theorem digit2_not_digit {c : Char} {cs : List Char} (h : c.isDigit = false) :
    digit2 (c :: cs) = none := by
  cases cs with
  | nil => rfl
  | cons b r => simp [digit2, h]

theorem tsMatch_nondigit_none {c : Char} {cs : List Char} (h : c.isDigit = false) :
    tsMatch (c :: cs) = none := by
  unfold tsMatch
  rw [digit2_not_digit h]
  rfl

theorem cueTimingR_nondigit_none {c : Char} {cs : List Char} (h : c.isDigit = false) :
    cueTimingR (c :: cs) = none := by
  unfold cueTimingR
  rw [tsMatch_nondigit_none h]
  rfl

theorem scanTsF_space_nil {l : List Char} (h : ∀ c ∈ l, isPySpace c = true) :
    ∀ fuel, scanTsF fuel l = [] := by
  induction l with
  | nil => intro fuel; cases fuel <;> rfl
  | cons c cs ih =>
    intro fuel
    cases fuel with
    | zero => rfl
    | succ n =>
      unfold scanTsF
      rw [cueTimingR_nondigit_none (isPySpace_not_digit (h c (by simp)))]
      exact ih (fun x hx => h x (by simp [hx])) n

theorem isPySpace_not_kw {c : Char} (h : isPySpace c = true) :
    c ≠ 'S' ∧ c ≠ 's' ∧ c ≠ 'P' ∧ c ≠ 'p' := by
  simp [isPySpace] at h
  rcases h with ((((h | h) | h) | h) | h) | h <;> subst h <;> refine ⟨?_, ?_, ?_, ?_⟩ <;> decide

theorem kwAt_space_none {c : Char} {cs : List Char} (h : isPySpace c = true) :
    kwAt (c :: cs) = none := by
  obtain ⟨h1, h2, h3, h4⟩ := isPySpace_not_kw h
  unfold kwAt
  simp [litAt, speakerCapWord, speakerWord, participantCapWord, participantLowWord,
    h1, h2, h3, h4]

theorem speakerNumAt_space_none {c : Char} {cs : List Char} (h : isPySpace c = true) :
    speakerNumAt (c :: cs) = none := by
  unfold speakerNumAt
  rw [kwAt_space_none h]

theorem scanSpkF_space_nil {l : List Char} (h : ∀ c ∈ l, isPySpace c = true) :
    ∀ fuel, scanSpkF fuel l = [] := by
  induction l with
  | nil => intro fuel; cases fuel <;> rfl
  | cons c cs ih =>
    intro fuel
    cases fuel with
    | zero => rfl
    | succ n =>
      unfold scanSpkF
      rw [speakerNumAt_space_none (h c (by simp))]
      exact ih (fun x hx => h x (by simp [hx])) n

/-- C4 counterexample: the source's participant-count pattern
`(?:Speaker|speaker|Participant|participant)\s*(\d+)` captures only the
numeral and requires no colon, so `ex4` (which holds both `Speaker 1:` and
`Participant 1:`) yields a participant count of 1 rather than the claimed 2,
and the bare `Speaker 5` of `ex4b` (no colon) yields 1 rather than nothing. -/
theorem C4_counterexample :
    (extract_webvtt_metadata ex4).participant_count = some 1 ∧
    ¬(extract_webvtt_metadata ex4).participant_count = some 2 ∧
    (extract_webvtt_metadata ex4b).participant_count = some 1 ∧
    ¬(extract_webvtt_metadata ex4b).participant_count = none := by decide

/-- C4 (amended): `participant_count` is the number of distinct digit strings
captured by scanning the raw text for the case-variant keywords
`Speaker`/`speaker`/`Participant`/`participant` followed by optional
whitespace and at least one digit (no colon required; the keyword kind is
discarded, so `Speaker 1` and `Participant 1` conflate); the key is absent
when no capture exists. -/
theorem C4_amended (raw : String) :
    (extract_webvtt_metadata raw).participant_count =
      if scanSpk raw.toList = [] then none
      else some (scanSpk raw.toList).dedup.length := by
  unfold extract_webvtt_metadata metaCore
  by_cases hb : pyStrip raw.toList = []
  · rw [if_pos hb]
    have hnil : scanSpk raw.data = [] :=
      scanSpkF_space_nil (pyStrip_nil_iff.mp hb) _
    simp [hnil]
  · rw [if_neg hb]

/-- C6 counterexample: the cue span of `ex6` is exactly 4500 milliseconds
(4.5 seconds), but the stored `duration_seconds` is the `int()`-truncated 4,
which is not equal to the end-minus-start value the claim asserts. -/
theorem C6_counterexample :
    (extract_webvtt_metadata ex6).duration_seconds = some 4 ∧
    durationExactMs ex6.toList = some 4500 ∧
    1000 * (4 : Int) ≠ 4500 := by decide

/-- C6 (amended): `duration_seconds` is Python's `int()` of the binary64
difference (end of the last timing match minus start of the first), each
timestamp evaluated as integer seconds plus `ms/1000.0` in binary64. The
float pipeline both truncates fractional spans toward zero (the 4.5-second
span of `ex6` stores 4) and can disagree with exact arithmetic (the exactly
1.000-second span of `ex6c` stores 0, because the binary64 difference falls
just below 1). Empty input yields the empty metadata object with neither key
set. -/
theorem C6_amended (raw : String) :
    (extract_webvtt_metadata raw).duration_seconds = durationOfScan raw.toList ∧
    extract_webvtt_metadata emptyRaw = ⟨none, none⟩ ∧
    (extract_webvtt_metadata ex6).duration_seconds = some 4 ∧
    (extract_webvtt_metadata ex6c).duration_seconds = some 0 ∧
    durationExactMs ex6c.toList = some 1000 := by
  refine ⟨?_, by decide, by decide, by decide, by decide⟩
  unfold extract_webvtt_metadata metaCore
  by_cases hb : pyStrip raw.toList = []
  · rw [if_pos hb]
    have hnil : scanTs raw.data = [] :=
      scanTsF_space_nil (pyStrip_nil_iff.mp hb) _
    simp [durationOfScan, hnil]
  · rw [if_neg hb]

/-- C9 counterexample: a cue content line that begins with `WEBVTT` and
immediately follows a cue-timing line is consumed as cue text and emitted, so
`parse_webvtt_to_text` does not drop every `WEBVTT`-prefixed line. -/
theorem C9_counterexample :
    parse_webvtt_to_text ex9 = ex9out ∧
    startsWEBVTT (pyStrip ex9out.toList) = true := by decide

theorem afterTiming_lift {l out : List Char} {ls : List (List Char)}
    (h : afterTiming ls out) : afterTiming (l :: ls) out := by
  obtain ⟨i, hi, hc, ho⟩ := h
  exact ⟨i + 1, Nat.succ_lt_succ hi, hc, ho⟩

theorem textLoop_webvtt_afterTiming :
    ∀ (n : ℕ) (ls : List (List Char)), ls.length ≤ n →
      ∀ out ∈ textLoop ls, startsWEBVTT out = true → afterTiming ls out := by
  intro n
  induction n with
  | zero =>
    intro ls hl out hout hw
    rw [Nat.le_zero, List.length_eq_zero] at hl
    subst hl
    simp [textLoop] at hout
  | succ n ih =>
    intro ls hl out hout hw
    cases ls with
    | nil => simp [textLoop] at hout
    | cons l rest =>
      have hr : rest.length ≤ n := by simpa using hl
      unfold textLoop at hout
      by_cases h1 : startsWEBVTT (pyStrip l) = true
      · rw [if_pos h1] at hout
        exact afterTiming_lift (ih rest hr out hout hw)
      · rw [if_neg h1] at hout
        by_cases h2 : pyStrip l = []
        · rw [if_pos h2] at hout
          exact afterTiming_lift (ih rest hr out hout hw)
        · rw [if_neg h2] at hout
          by_cases h3 : (cueTiming (pyStrip l)).isSome = true
          · rw [if_pos h3] at hout
            cases rest with
            | nil => simp at hout
            | cons t rest2 =>
              have hr2 : rest2.length ≤ n := by
                simp at hr
                omega
              dsimp only at hout
              by_cases h4 : pyStrip t ≠ [] ∧ (tsMatch (pyStrip t)).isNone = true
              · rw [if_pos h4] at hout
                rcases List.mem_cons.mp hout with rfl | hmem
                · exact ⟨0, by simp, h3, rfl⟩
                · exact afterTiming_lift
                    (afterTiming_lift (ih rest2 hr2 out hmem hw))
              · rw [if_neg h4] at hout
                exact afterTiming_lift
                  (afterTiming_lift (ih rest2 hr2 out hout hw))
          · rw [if_neg h3] at hout
            by_cases h5 : (tsMatch (pyStrip l)).isSome = true
            · rw [if_pos h5] at hout
              exact afterTiming_lift (ih rest hr out hout hw)
            · rw [if_neg h5] at hout
              rcases List.mem_cons.mp hout with rfl | hmem
              · exact absurd hw (by simp [h1])
              · exact afterTiming_lift (ih rest hr out hmem hw)

/-- C9 (amended): `parse_webvtt_to_text` drops every line whose stripped form
starts with `WEBVTT` except a line immediately following a full cue-timing
line, which is consumed as cue content without the header check: every
emitted line starting with `WEBVTT` is the stripped successor of a cue-timing
line of the input (the counterexample shows such a successor really is
emitted). -/
theorem C9_amended (raw : String) :
    ∀ out ∈ textLoop (splitOnNL raw.toList), startsWEBVTT out = true →
      afterTiming (splitOnNL raw.toList) out :=
  fun out hout hw =>
    textLoop_webvtt_afterTiming (splitOnNL raw.toList).length
      (splitOnNL raw.toList) le_rfl out hout hw

/-- Witness for `C9_amended`: on `ex9` (which does contain a timing line) the
emitted `WEBVTT rocks` line sits right after that timing line. -/
theorem C9_amended_witness :
    pyStrip ex9out.toList ∈ textLoop (splitOnNL ex9.toList) ∧
    startsWEBVTT (pyStrip ex9out.toList) = true ∧
    afterTiming (splitOnNL ex9.toList) (pyStrip ex9out.toList) :=
  ⟨by decide, by decide,
    C9_amended ex9 (pyStrip ex9out.toList) (by decide) (by decide)⟩

theorem startsWEBVTT_head {l : List Char} (h : startsWEBVTT l = true) :
    ∃ cs, l = 'W' :: cs := by
  cases l with
  | nil => simp [startsWEBVTT, webvttLit, litAt] at h
  | cons c cs =>
    refine ⟨cs, ?_⟩
    by_cases hc : c = 'W'
    · rw [hc]
    · simp [startsWEBVTT, webvttLit, litAt, hc] at h

theorem cueTiming_nil : cueTiming ([] : List Char) = none := rfl

theorem cueTiming_none_of_webvtt {l : List Char} (h : startsWEBVTT l = true) :
    cueTiming l = none := by
  obtain ⟨cs, rfl⟩ := startsWEBVTT_head h
  unfold cueTiming
  rw [cueTimingR_nondigit_none (by decide)]
  rfl

theorem segLoopF_eq_spec :
    ∀ (fuel : Nat) (ls : List (List Char)), ls.length ≤ fuel →
      segLoopF fuel ls =
        (specCueBlocksF fuel ls).map (fun c => mkSeg c.1 c.2.1 c.2.2) := by
  intro fuel
  induction fuel with
  | zero => intro ls _; rfl
  | succ n ih =>
    intro ls hf
    cases ls with
    | nil => rfl
    | cons l rest =>
      have hr : rest.length ≤ n := by simpa using hf
      unfold segLoopF specCueBlocksF
      by_cases h1 : startsWEBVTT (pyStrip l)
      · rw [if_pos h1, cueTiming_none_of_webvtt h1]
        exact ih rest hr
      · rw [if_neg h1]
        by_cases h2 : pyStrip l = []
        · rw [if_pos h2, h2, cueTiming_nil]
          exact ih rest hr
        · rw [if_neg h2]
          cases hc : cueTiming (pyStrip l) with
          | none =>
            exact ih rest hr
          | some p =>
            obtain ⟨st, en⟩ := p
            dsimp only
            have hq : (takeCueText rest).2.length ≤ n :=
              le_trans (takeCueText_snd_length rest) hr
            by_cases h3 : (takeCueText rest).1 = []
            · rw [if_pos h3, if_pos h3]
              exact ih _ hq
            · rw [if_neg h3, if_neg h3, List.map_cons]
              exact congrArg₂ List.cons rfl (ih _ hq)

theorem specCueBlocksF_space_nil {ls : List (List Char)}
    (h : ∀ l ∈ ls, pyStrip l = []) :
    ∀ fuel, specCueBlocksF fuel ls = [] := by
  induction ls with
  | nil => intro fuel; cases fuel <;> rfl
  | cons l rest ih =>
    intro fuel
    cases fuel with
    | zero => rfl
    | succ n =>
      unfold specCueBlocksF
      rw [h l (by simp), cueTiming_nil]
      exact ih (fun x hx => h x (by simp [hx])) n

theorem head?_dropWhile_not {p : Char → Bool} {l : List Char} {c : Char}
    (h : (l.dropWhile p).head? = some c) : p c = false := by
  induction l with
  | nil => simp [List.dropWhile] at h
  | cons x xs ih =>
    by_cases hx : p x
    · rw [List.dropWhile_cons, if_pos hx] at h
      exact ih h
    · rw [List.dropWhile_cons, if_neg hx] at h
      simp at h
      subst h
      simpa using hx

theorem pyStrip_getLast?_not_space {l : List Char} {c : Char}
    (h : (pyStrip l).getLast? = some c) : isPySpace c = false := by
  unfold pyStrip at h
  rw [List.getLast?_reverse] at h
  exact head?_dropWhile_not h

theorem litAtCI_suffix {w l cons rest : List Char}
    (h : litAtCI w l = some (cons, rest)) : rest <:+ l := by
  induction w generalizing l cons rest with
  | nil =>
    simp [litAtCI] at h
    simp [h]
  | cons p ps ih =>
    cases l with
    | nil => simp [litAtCI] at h
    | cons c cs =>
      unfold litAtCI at h
      by_cases hc : c.toLower = p
      · rw [if_pos hc] at h
        cases hr : litAtCI ps cs with
        | none => rw [hr] at h; simp at h
        | some q =>
          obtain ⟨w1, r1⟩ := q
          rw [hr] at h
          simp only [Option.some_inj, Prod.mk.injEq] at h
          rw [← h.2]
          exact (ih hr).trans (List.suffix_cons c cs)
      · rw [if_neg hc] at h; simp at h

theorem expectCh_suffix {ch : Char} {l r : List Char} (h : expectCh ch l = some r) :
    r <:+ l := by
  cases l with
  | nil => simp [expectCh] at h
  | cons c cs =>
    simp only [expectCh, Option.ite_none_right_eq_some, Option.some_inj] at h
    rw [← h.2]
    exact List.suffix_cons c cs

theorem speakerAttr_text {word full lab txt : List Char}
    (h : speakerAttr word full = some (lab, txt)) :
    ∃ r4, r4 ≠ [] ∧ r4 <:+ full ∧ txt = pyStrip r4 := by
  unfold speakerAttr at h
  simp only [bind, Option.bind_eq_some] at h
  obtain ⟨⟨w, r1⟩, e1, h⟩ := h
  by_cases hsp : r1.takeWhile isPySpace = []
  · rw [if_pos hsp] at h; simp at h
  · rw [if_neg hsp] at h
    by_cases hds : (r1.dropWhile isPySpace).takeWhile Char.isDigit = []
    · rw [if_pos hds] at h; simp at h
    · rw [if_neg hds] at h
      simp only [bind, Option.bind_eq_some] at h
      obtain ⟨r4, e4, h⟩ := h
      by_cases h4 : r4 = []
      · rw [if_pos h4] at h; simp at h
      · rw [if_neg h4] at h
        simp only [Option.some_inj, Prod.mk.injEq] at h
        refine ⟨r4, h4, ?_, h.2.symm⟩
        calc r4 <:+ (r1.dropWhile isPySpace).dropWhile Char.isDigit := expectCh_suffix e4
          _ <:+ r1.dropWhile isPySpace := List.dropWhile_suffix _
          _ <:+ r1 := List.dropWhile_suffix _
          _ <:+ full := litAtCI_suffix e1

theorem suffix_getLast? {xs ys : List Char} (h : xs <:+ ys) (hne : xs ≠ []) :
    ys.getLast? = xs.getLast? := by
  obtain ⟨t, rfl⟩ := h
  exact List.getLast?_append_of_ne_nil _ hne

theorem joinSep_last_not_space {sep : List Char} {ls : List (List Char)}
    (hne : ls ≠ [])
    (hall : ∀ x ∈ ls, x ≠ [] ∧ ∀ c, x.getLast? = some c → isPySpace c = false) :
    joinSep sep ls ≠ [] ∧
      ∀ c, (joinSep sep ls).getLast? = some c → isPySpace c = false := by
  induction ls with
  | nil => simp at hne
  | cons x xs ih =>
    cases xs with
    | nil =>
      exact ⟨(hall x (by simp)).1, fun c hc => (hall x (by simp)).2 c hc⟩
    | cons y ys =>
      have hj := ih (by simp) (fun z hz => hall z (by simp [hz]))
      constructor
      · intro hcontra
        unfold joinSep at hcontra
        rcases List.append_eq_nil.mp hcontra with ⟨-, h2⟩
        exact hj.1 h2
      · intro c hc
        unfold joinSep at hc
        rw [List.getLast?_append_of_ne_nil _ hj.1] at hc
        exact hj.2 c hc

theorem takeCueText_fst_mem {ls : List (List Char)} {x : List Char}
    (hx : x ∈ (takeCueText ls).1) : x ≠ [] ∧ ∃ y, x = pyStrip y := by
  induction ls with
  | nil => simp [takeCueText] at hx
  | cons l rest ih =>
    unfold takeCueText at hx
    by_cases hcond : pyStrip l = [] ∨ (tsMatch (pyStrip l)).isSome = true
    · rw [if_pos hcond] at hx
      simp at hx
    · rw [if_neg hcond] at hx
      rcases List.mem_cons.mp hx with rfl | hmem
      · exact ⟨fun hc => hcond (Or.inl hc), l, rfl⟩
      · exact ih hmem

theorem specCueBlocksF_mem :
    ∀ {fuel : Nat} {ls : List (List Char)} {cue : Nat × Nat × List (List Char)},
      cue ∈ specCueBlocksF fuel ls →
      cue.2.2 ≠ [] ∧ ∀ x ∈ cue.2.2, x ≠ [] ∧ ∃ y, x = pyStrip y := by
  intro fuel
  induction fuel with
  | zero => intro ls cue h; simp [specCueBlocksF] at h
  | succ n ih =>
    intro ls cue h
    cases ls with
    | nil => simp [specCueBlocksF] at h
    | cons l rest =>
      unfold specCueBlocksF at h
      split at h
      · by_cases h3 : (takeCueText rest).1 = []
        · rw [if_pos h3] at h
          exact ih h
        · rw [if_neg h3] at h
          rcases List.mem_cons.mp h with rfl | hmem
          · exact ⟨h3, fun x hx => takeCueText_fst_mem hx⟩
          · exact ih hmem
      · exact ih h

theorem mkSeg_text_ne {st en : Nat} {textLines : List (List Char)}
    (hne : textLines ≠ [])
    (hall : ∀ x ∈ textLines, x ≠ [] ∧ ∃ y, x = pyStrip y) :
    (mkSeg st en textLines).text ≠ [] := by
  have hall' : ∀ x ∈ textLines,
      x ≠ [] ∧ ∀ c, x.getLast? = some c → isPySpace c = false := by
    intro x hx
    obtain ⟨hx1, y, rfl⟩ := hall x hx
    exact ⟨hx1, fun c hc => pyStrip_getLast?_not_space hc⟩
  have hfull := @joinSep_last_not_space spaceSep textLines hne hall'
  obtain ⟨cl, hcl⟩ : ∃ cl, (joinSep spaceSep textLines).getLast? = some cl := by
    cases hgl : (joinSep spaceSep textLines).getLast? with
    | none => exact absurd (List.getLast?_eq_none_iff.mp hgl) hfull.1
    | some c => exact ⟨c, rfl⟩
  have hclspace : isPySpace cl = false := hfull.2 cl hcl
  have key : ∀ {w lab txt : List Char},
      speakerAttr w (joinSep spaceSep textLines) = some (lab, txt) → txt ≠ [] := by
    intro w lab txt hattr hemp
    obtain ⟨r4, h4ne, h4suf, rfl⟩ := speakerAttr_text hattr
    have hr4last : r4.getLast? = some cl := by
      rw [← suffix_getLast? h4suf h4ne]
      exact hcl
    have : isPySpace cl = true :=
      (pyStrip_nil_iff.mp hemp) cl (List.mem_of_mem_getLast? (Option.mem_def.mpr hr4last))
    rw [hclspace] at this
    exact Bool.false_ne_true this
  have hattr : (attribSpeaker (joinSep spaceSep textLines)).2 ≠ [] := by
    unfold attribSpeaker
    cases hs : speakerAttr speakerWord (joinSep spaceSep textLines) with
    | some p =>
      obtain ⟨lab, txt⟩ := p
      exact key hs
    | none =>
      cases hp : speakerAttr participantWord (joinSep spaceSep textLines) with
      | some p =>
        obtain ⟨lab, txt⟩ := p
        exact key hp
      | none =>
        exact hfull.1
  exact hattr

/-- C7 counterexample: spec §4.1 ends cue content only at a blank line or the
next full timing line, so `ex7` has exactly one contentful cue block (its
content is the arrow-less `00:00:05.000 partial` line and `hello`); the code
stops collecting at any timestamp-prefixed line and parses `ex7` to zero
segments, refuting `len(parseToSegments(raw)) ==` number of contentful cue
blocks under the spec's own notion of cue block. -/
theorem C7_counterexample :
    (specWordedBlocks (splitOnNL ex7.toList)).length = 1 ∧
    parse_webvtt_to_segments ex7 = [] ∧
    (parse_webvtt_to_segments ex7).length ≠
      (specWordedBlocks (splitOnNL ex7.toList)).length := by decide

/-- C7 (amended): `parse_webvtt_to_segments` produces exactly one segment per
cue block that has at least one non-empty content line, in input cue order —
where a block's content ends at a blank line or at any timestamp-prefixed
line (`HH:MM:SS.mmm` with or without the arrow), not only at the next full
timing line as spec §4.1 says — and no emitted segment has empty text. The
parser is a total function, so it returns normally on arbitrary input. -/
theorem C7_parse_to_segments (raw : String) :
    parse_webvtt_to_segments raw =
      (specCueBlocks (splitOnNL raw.toList)).map (fun c => mkSeg c.1 c.2.1 c.2.2) ∧
    ∀ s ∈ parse_webvtt_to_segments raw, s.text ≠ [] := by
  have hmain : parse_webvtt_to_segments raw =
      (specCueBlocks (splitOnNL raw.toList)).map (fun c => mkSeg c.1 c.2.1 c.2.2) := by
    unfold parse_webvtt_to_segments segsCore
    by_cases hb : pyStrip raw.toList = []
    · rw [if_pos hb]
      have hlines : ∀ l ∈ splitOnNL raw.toList, pyStrip l = [] := by
        intro l hl
        rw [pyStrip_nil_iff]
        intro c hc
        exact (pyStrip_nil_iff.mp hb) c (mem_splitOnNL_subset hl hc)
      rw [specCueBlocks, specCueBlocksF_space_nil hlines]
      rfl
    · rw [if_neg hb]
      exact segLoopF_eq_spec _ _ le_rfl
  refine ⟨hmain, ?_⟩
  intro s hs
  rw [hmain] at hs
  obtain ⟨cue, hcue, rfl⟩ := List.mem_map.mp hs
  have hfacts := specCueBlocksF_mem hcue
  exact mkSeg_text_ne hfacts.1 hfacts.2

theorem selectLoop_finds (room_id : Option (List Char)) (room_name : List Char) :
    ∀ (entries : List ProviderEntry) (acc : Option ProviderEntry),
      (∃ e ∈ entries, entryMatches room_id room_name e = true ∧ entryReady e = true) →
      ∃ e, selectLoop room_id room_name entries acc = some e ∧
        entryMatches room_id room_name e = true ∧ entryReady e = true := by
  intro entries
  induction entries with
  | nil =>
    intro acc h
    obtain ⟨e, he, -⟩ := h
    simp at he
  | cons a rest ih =>
    intro acc h
    unfold selectLoop
    by_cases hma : entryMatches room_id room_name a = true
    · rw [if_pos hma]
      by_cases hra : entryReady a = true
      · rw [if_pos hra]
        exact ⟨a, rfl, hma, hra⟩
      · rw [if_neg hra]
        have hrest : ∃ e ∈ rest,
            entryMatches room_id room_name e = true ∧ entryReady e = true := by
          obtain ⟨e, he, hm, hr⟩ := h
          rcases List.mem_cons.mp he with rfl | hi
          · exact absurd hr hra
          · exact ⟨e, hi, hm, hr⟩
        by_cases hacc : acc.isNone = true
        · rw [if_pos hacc]
          exact ih _ hrest
        · rw [if_neg hacc]
          exact ih _ hrest
    · rw [if_neg hma]
      have hrest : ∃ e ∈ rest,
          entryMatches room_id room_name e = true ∧ entryReady e = true := by
        obtain ⟨e, he, hm, hr⟩ := h
        rcases List.mem_cons.mp he with rfl | hi
        · exact absurd hm hma
        · exact ⟨e, hi, hm, hr⟩
      exact ih _ hrest

/-- C5: whenever the provider listing contains at least one entry that
matches the room and is finished with its VTT available, the selection loop
of `get_daily_transcript` settles on such an entry, regardless of where it
sits relative to matching unfinished entries. -/
theorem C5_locator (room_id : Option (List Char)) (room_name : List Char)
    (entries : List ProviderEntry)
    (h : ∃ e ∈ entries, entryMatches room_id room_name e = true ∧ entryReady e = true) :
    ∃ e, locateTranscript room_id room_name entries = some e ∧
      entryMatches room_id room_name e = true ∧ entryReady e = true :=
  selectLoop_finds room_id room_name entries none h

/-- Witness for `C5_locator`: the unfinished matching entry sits first. -/
theorem C5_locator_witness :
    ∃ e, locateTranscript ridW roomNameW [entNotReady, entReady] = some e ∧
      entryMatches ridW roomNameW e = true ∧ entryReady e = true :=
  C5_locator ridW roomNameW [entNotReady, entReady]
    ⟨entReady, by decide, by decide, by decide⟩

/-- C1 counterexample: the no-overwrite guard of `save_transcript` tests
`transcript_text`, not `raw_captions` (`transcript_webvtt`). A completed
record with empty raw captions (client-sourced) but non-empty text is
returned unchanged with no write, though the claim requires an overwrite;
a completed record with non-empty raw captions but empty text is
overwritten, though the claim requires it to be preserved. -/
theorem C1_counterexample :
    save_transcript (some recClientDone) 99 iid1 reqC1 = .ok recClientDone .noWrite ∧
    recClientDone.transcript_webvtt = none ∧
    recClientDone.status = completedS ∧
    recProviderNoText.transcript_webvtt ≠ none ∧
    recProviderNoText.status = completedS ∧
    saveEffect (save_transcript (some recProviderNoText) 99 iid1 reqC1) =
      some (.updated 42) := by decide

/-- C1 (amended): for an existing record, `save_transcript` returns it
unchanged with no store write iff its status is `completed` AND its
`transcript_text` is non-empty — regardless of `raw_captions`; in every other
case it overwrites text, segments (stored verbatim), timing and status
(`completed`) with the client-supplied data, leaving `raw_captions`
untouched. -/
theorem C1_amended (r : TranscriptRecord) (freshId : Nat) (iid : List Char)
    (req : SaveRequest) (hseg : req.segments ≠ []) :
    (save_transcript (some r) freshId iid req = .ok r .noWrite ↔
      r.status = completedS ∧ r.transcript_text ≠ []) ∧
    (¬(r.status = completedS ∧ r.transcript_text ≠ []) →
      ∃ u, save_transcript (some r) freshId iid req = .ok u (.updated r.id) ∧
        u.status = completedS ∧
        u.transcript_data = some (.client req.segments req.source) ∧
        u.transcript_text = joinSep nlSep (req.segments.filterMap fmtSegLine) ∧
        u.transcript_webvtt = r.transcript_webvtt) := by
  unfold save_transcript
  rw [if_neg hseg]
  dsimp only
  by_cases hg : r.status = completedS ∧ r.transcript_text ≠ []
  · rw [if_pos hg]
    exact ⟨by simp [hg], fun hc => absurd hg hc⟩
  · rw [if_neg hg]
    constructor
    · constructor
      · intro he
        simp at he
      · intro hc
        exact absurd hc hg
    · intro _
      exact ⟨_, rfl, rfl, rfl, rfl, rfl⟩

/-- Witness for `C1_amended` at a completed record with empty text: the
overwrite branch is taken. -/
theorem C1_amended_witness :
    (save_transcript (some recEmptyText) 5 iid1 reqC1 = .ok recEmptyText .noWrite ↔
      recEmptyText.status = completedS ∧ recEmptyText.transcript_text ≠ []) ∧
    (¬(recEmptyText.status = completedS ∧ recEmptyText.transcript_text ≠ []) →
      ∃ u, save_transcript (some recEmptyText) 5 iid1 reqC1 =
          .ok u (.updated recEmptyText.id) ∧
        u.status = completedS ∧
        u.transcript_data = some (.client reqC1.segments reqC1.source) ∧
        u.transcript_text = joinSep nlSep (reqC1.segments.filterMap fmtSegLine) ∧
        u.transcript_webvtt = recEmptyText.transcript_webvtt) :=
  C1_amended recEmptyText 5 iid1 reqC1 (by decide)

/-- C2 counterexample: the reconciler's short-circuit tests only
`status == "completed"`. A completed record with empty `transcript_text` and
no provider captions is returned unchanged without any provider call, even
though ready provider content exists — contradicting the claim's "only if
non-empty transcript_text sourced from the provider / otherwise it queries
the provider". -/
theorem C2_counterexample :
    recCompletedEmpty.transcript_text = [] ∧
    recCompletedEmpty.transcript_webvtt = none ∧
    fetch_and_store_transcript (some recCompletedEmpty) 8 (some providerContent)
      room1 iid1 = ⟨recCompletedEmpty, false, .noWrite⟩ := by decide

theorem fetch_some (r : TranscriptRecord) (freshId : Nat)
    (provider : Option (List Char)) (room iid : List Char) :
    fetch_and_store_transcript (some r) freshId provider room iid =
      if r.status = completedS then ⟨r, false, .noWrite⟩
      else fetchBody (some r) freshId provider room iid := rfl

theorem fetch_none (freshId : Nat) (provider : Option (List Char)) (room iid : List Char) :
    fetch_and_store_transcript none freshId provider room iid =
      fetchBody none freshId provider room iid := rfl

theorem fetchBody_providerCalled (existing : Option TranscriptRecord) (freshId : Nat)
    (provider : Option (List Char)) (room iid : List Char) :
    (fetchBody existing freshId provider room iid).providerCalled = true := by
  unfold fetchBody
  cases provider with
  | none => cases existing <;> rfl
  | some w =>
    dsimp only
    by_cases hw : w = []
    · rw [if_pos hw]
      cases existing <;> rfl
    · rw [if_neg hw]
      cases existing <;> rfl

/-- C2 (amended): the reconciler returns the stored record unchanged — with
no provider call and no store write — iff the record exists and its status is
`completed`, regardless of `transcript_text` or its source; in every other
case it queries the provider. After any call whose returned record has status
`completed`, a further call seeded with that record returns it bit-identical
with no provider call and no write. -/
theorem C2_amended (existing : Option TranscriptRecord) (freshId freshId2 : Nat)
    (provider provider2 : Option (List Char)) (room iid : List Char) :
    ((fetch_and_store_transcript existing freshId provider room iid).providerCalled = false ↔
      ∃ r, existing = some r ∧ r.status = completedS) ∧
    (∀ r, existing = some r → r.status = completedS →
      fetch_and_store_transcript existing freshId provider room iid = ⟨r, false, .noWrite⟩) ∧
    ((fetch_and_store_transcript existing freshId provider room iid).record.status = completedS →
      fetch_and_store_transcript
        (some (fetch_and_store_transcript existing freshId provider room iid).record)
        freshId2 provider2 room iid =
        ⟨(fetch_and_store_transcript existing freshId provider room iid).record,
          false, .noWrite⟩) := by
  refine ⟨?_, ?_, ?_⟩
  · constructor
    · intro h
      cases existing with
      | none =>
        rw [fetch_none, fetchBody_providerCalled] at h
        simp at h
      | some r =>
        by_cases hs : r.status = completedS
        · exact ⟨r, rfl, hs⟩
        · rw [fetch_some, if_neg hs, fetchBody_providerCalled] at h
          simp at h
    · rintro ⟨r, rfl, hs⟩
      rw [fetch_some, if_pos hs]
  · rintro r rfl hs
    rw [fetch_some, if_pos hs]
  · intro hs
    rw [fetch_some, if_pos hs]

/-- Witness for `C2_amended` at a concrete completed record and ready
provider content. -/
theorem C2_amended_witness :
    fetch_and_store_transcript (some recClientDone) 8 (some providerContent)
      room1 iid1 = ⟨recClientDone, false, .noWrite⟩ :=
  (C2_amended (some recClientDone) 8 9 (some providerContent) none room1 iid1).2.1
    recClientDone rfl (by decide)

/-- C3 counterexample: ready provider content that parses to zero usable
segments is persisted with `status = "completed"`, not `"failed"`; no code
path in the reconciler ever writes `failed`. -/
theorem C3_counterexample :
    wcNoSegs ≠ [] ∧
    segsCore wcNoSegs = [] ∧
    (fetch_and_store_transcript none 3 (some wcNoSegs) room1 iid1).record.status =
      completedS ∧
    (fetch_and_store_transcript none 3 (some wcNoSegs) room1 iid1).record.status ≠
      failedS ∧
    (fetch_and_store_transcript none 3 (some wcNoSegs) room1 iid1).effect =
      .created := by decide

/-- C3 (amended): when the provider reports content that is fetched but
parses to zero usable segments, the record is persisted with
`status = "completed"` (with no structured segment data on the create path);
the `failed` status is never produced. Mere unavailability still yields
`status = "pending"`. -/
theorem C3_amended (existing : Option TranscriptRecord) (freshId : Nat)
    (wc room iid : List Char) (hne : wc ≠ []) (hsegs : segsCore wc = [])
    (hnc : ∀ r, existing = some r → r.status ≠ completedS) :
    (fetch_and_store_transcript existing freshId (some wc) room iid).record.status =
      completedS ∧
    (existing = none →
      (fetch_and_store_transcript existing freshId (some wc) room iid).record.transcript_data =
        none) ∧
    (fetch_and_store_transcript none freshId none room iid).record.status = pendingS := by
  refine ⟨?_, ?_, rfl⟩
  · cases existing with
    | none =>
      show (fetchBody none freshId (some wc) room iid).record.status = completedS
      unfold fetchBody
      dsimp only
      rw [if_neg hne]
      rfl
    | some r =>
      rw [fetch_some, if_neg (hnc r rfl)]
      show (fetchBody (some r) freshId (some wc) room iid).record.status = completedS
      unfold fetchBody
      dsimp only
      rw [if_neg hne]
      rfl
  · rintro rfl
    show (fetchBody none freshId (some wc) room iid).record.transcript_data = none
    unfold fetchBody
    dsimp only
    rw [if_neg hne]
    show (create_transcript freshId iid room (textCore wc) (some wc)
      (if segsCore wc = [] then none else some (TData.provider (segsCore wc)))
      none none (metaCore wc).duration_seconds (metaCore wc).participant_count
      completedS).transcript_data = none
    rw [if_pos hsegs]
    rfl

/-- Witness for `C3_amended` at the concrete zero-segment content. -/
theorem C3_amended_witness :
    (fetch_and_store_transcript none 3 (some wcNoSegs) room1 iid1).record.status =
      completedS ∧
    (fetch_and_store_transcript none 3 (some wcNoSegs) room1 iid1).record.transcript_data =
      none ∧
    (fetch_and_store_transcript none 3 none room1 iid1).record.status = pendingS := by
  have h := C3_amended none 3 wcNoSegs room1 iid1 (by decide) (by decide)
    (fun r hr => by simp at hr)
  exact ⟨h.1, h.2.1 rfl, h.2.2⟩

theorem fmtSegLine_none_iff {s : ClientSegment} :
    fmtSegLine s = none ↔ pyStrip s.text = [] := by
  unfold fmtSegLine
  by_cases h : pyStrip s.text = []
  · simp [h]
  · rw [if_neg h]
    cases s.speaker with
    | none => simp [h]
    | some sp =>
      by_cases hsp : sp = []
      · simp [hsp, h]
      · simp [hsp, h]

theorem filterMap_fmt_eq_filter_map (segs : List ClientSegment) :
    segs.filterMap fmtSegLine =
      (segs.filter hasText).map (fun s => (fmtSegLine s).getD []) := by
  induction segs with
  | nil => rfl
  | cons a t ih =>
    by_cases ha : pyStrip a.text = []
    · have hfa : fmtSegLine a = none := fmtSegLine_none_iff.mpr ha
      have hht : hasText a = false := by simp [hasText, ha]
      simp [List.filterMap_cons, List.filter_cons, hfa, hht, ih]
    · have hfa : fmtSegLine a ≠ none := fun hc => ha (fmtSegLine_none_iff.mp hc)
      obtain ⟨v, hv⟩ := Option.ne_none_iff_exists'.mp hfa
      have hht : hasText a = true := by simp [hasText, ha]
      simp [List.filterMap_cons, List.filter_cons, hv, hht, ih]

theorem mem_clientLabels {segs : List ClientSegment} {s : ClientSegment}
    (hs : s ∈ segs) {lab : List Char} (hlab : lab ∈ segLabels s) :
    lab ∈ clientLabels segs := by
  unfold clientLabels
  rw [List.mem_flatten]
  exact ⟨segLabels s, List.mem_map_of_mem _ hs, hlab⟩

/-- C10: on a write path, the full submitted segment list is persisted
verbatim in `transcript_data`, the derived plain text keeps exactly the
segments with non-blank text, and the participant count is derived from the
labels of all submitted segments — including those whose text is blank. -/
theorem C10_blank_segments (freshId : Nat) (iid : List Char) (req : SaveRequest)
    (hseg : req.segments ≠ []) :
    (∃ u, save_transcript none freshId iid req = .ok u .created ∧
      u.transcript_data = some (.client req.segments req.source) ∧
      u.transcript_text = joinSep nlSep ((req.segments.filter hasText).map
        (fun s => (fmtSegLine s).getD [])) ∧
      u.participant_count = (if clientLabels req.segments = [] then none
        else some (clientLabels req.segments).dedup.length)) ∧
    (∀ r : TranscriptRecord, ¬(r.status = completedS ∧ r.transcript_text ≠ []) →
      ∃ u, save_transcript (some r) freshId iid req = .ok u (.updated r.id) ∧
        u.transcript_data = some (.client req.segments req.source) ∧
        u.transcript_text = joinSep nlSep ((req.segments.filter hasText).map
          (fun s => (fmtSegLine s).getD [])) ∧
        (clientLabels req.segments ≠ [] →
          u.participant_count = some (clientLabels req.segments).dedup.length)) ∧
    (∀ s ∈ req.segments, ∀ lab ∈ segLabels s, lab ∈ clientLabels req.segments) := by
  refine ⟨?_, ?_, ?_⟩
  · unfold save_transcript
    rw [if_neg hseg]
    dsimp only
    exact ⟨_, rfl, rfl, by rw [filterMap_fmt_eq_filter_map]; rfl, rfl⟩
  · intro r hno
    unfold save_transcript
    rw [if_neg hseg]
    dsimp only
    rw [if_neg hno]
    refine ⟨_, rfl, rfl, by rw [filterMap_fmt_eq_filter_map]; rfl, ?_⟩
    intro hlabs
    show (match (if clientLabels req.segments = [] then none
        else some (clientLabels req.segments).dedup.length : Option Nat) with
      | some v => some v
      | none => r.participant_count) = some (clientLabels req.segments).dedup.length
    rw [if_neg hlabs]
  · intro s hs lab hlab
    exact mem_clientLabels hs hlab

/-- Witness for `C10_blank_segments`: a blank-text segment is dropped from
the text but kept in the stored data and counted in the participant set. -/
theorem C10_blank_segments_witness :
    (∃ u, save_transcript none 11 iid1 reqC10 = .ok u .created ∧
      u.transcript_data = some (.client reqC10.segments reqC10.source) ∧
      u.transcript_text = joinSep nlSep ((reqC10.segments.filter hasText).map
        (fun s => (fmtSegLine s).getD [])) ∧
      u.participant_count = (if clientLabels reqC10.segments = [] then none
        else some (clientLabels reqC10.segments).dedup.length)) ∧
    (∀ r : TranscriptRecord, ¬(r.status = completedS ∧ r.transcript_text ≠ []) →
      ∃ u, save_transcript (some r) 11 iid1 reqC10 = .ok u (.updated r.id) ∧
        u.transcript_data = some (.client reqC10.segments reqC10.source) ∧
        u.transcript_text = joinSep nlSep ((reqC10.segments.filter hasText).map
          (fun s => (fmtSegLine s).getD [])) ∧
        (clientLabels reqC10.segments ≠ [] →
          u.participant_count = some (clientLabels reqC10.segments).dedup.length)) ∧
    (∀ s ∈ reqC10.segments, ∀ lab ∈ segLabels s, lab ∈ clientLabels reqC10.segments) :=
  C10_blank_segments 11 iid1 reqC10 (by decide)

/-- C8 counterexample: the reconciler's store read and its post-provider
write are separate atomic steps with the provider `await` between them and no
lock anywhere in the source; under the schedule read1, read2, write1, write2
both calls observe an empty store and both create a record. -/
theorem C8_counterexample :
    (raceExec 1 2 none raceRoom raceIid raceSchedTwo raceInit).t1 = .readDone none ∧
    (raceExec 1 2 none raceRoom raceIid raceSchedTwo raceInit).t2 = .readDone none ∧
    (raceExec 1 2 none raceRoom raceIid raceSched raceInit).creates = 2 ∧
    ((raceExec 1 2 none raceRoom raceIid raceSched raceInit).t1).isDone = true ∧
    ((raceExec 1 2 none raceRoom raceIid raceSched raceInit).t2).isDone = true := by
  decide

/-- C8 (amended): reconciliation is not serialized per room: there exists an
interleaving of two concurrent `fetch_and_store_transcript` calls for the same
room in which both observe "no record" and both perform a create. -/
theorem C8_amended :
    ∃ sched : List Bool,
      (raceExec 1 2 none raceRoom raceIid sched raceInit).creates = 2 ∧
      ((raceExec 1 2 none raceRoom raceIid sched raceInit).t1).isDone = true ∧
      ((raceExec 1 2 none raceRoom raceIid sched raceInit).t2).isDone = true :=
  ⟨raceSched, by decide, by decide, by decide⟩

end BriefingRoom
